import Mathlib

/-!
Verification of the XML tree core (`src/core/src/xml/tree.rs`).

The Rust code mutates `GcCell`-backed nodes through shared handles.  We embed
it shallowly: a `Heap` maps node identifiers (`Nat`) to `XmlNodeData` records,
and every Rust method becomes an explicit heap transformer.  Rust panics
(`Vec::insert` out of bounds, `Option::unwrap`, failed `assert!`) are modelled
by `Option`-valued results, `none` meaning a panic.
-/

set_option maxRecDepth 4000

namespace XmlTree

/-- Node kind constant `ELEMENT_NODE` from the source. -/
def ELEMENT_NODE : Nat := 1

/-- Node kind constant `TEXT_NODE` from the source. -/
def TEXT_NODE : Nat := 3

/-- Embedding of `XmlNodeData`.  `AvmString` values become `String`; object
handles (`Object<'gc>`) become opaque `Nat` identifiers; the `BTreeMap` of
attributes becomes a key-sorted association list. -/
structure XmlNodeData where
  script_object : Option Nat
  attributes_script_object : Option Nat
  parent : Option Nat
  prev_sibling : Option Nat
  next_sibling : Option Nat
  node_type : Nat
  node_value : Option String
  attributes : List (String × String)
  children : List Nat
deriving DecidableEq

/-- The garbage-collected store of nodes: an association list from node id to
node data together with the next fresh id.  `GcCell::allocate` prepends a
binding at a fresh id. -/
structure Heap where
  nodes : List (Nat × XmlNodeData)
  nextId : Nat
deriving DecidableEq

/-- Dereference a node handle (`self.0.read()`). -/
def getNode (h : Heap) (n : Nat) : Option XmlNodeData :=
  (h.nodes.find? (fun p => p.1 == n)).map (fun p => p.2)

/-- Update every binding of id `n` in the association list. -/
def updateEntries (n : Nat) (f : XmlNodeData → XmlNodeData) :
    List (Nat × XmlNodeData) → List (Nat × XmlNodeData)
  | [] => []
  | p :: rest => (if p.1 = n then (p.1, f p.2) else p) :: updateEntries n f rest

/-- Write through a node handle (`self.0.write(mc)` followed by a field
update): replaces the data stored at id `n`. -/
def modifyNode (h : Heap) (n : Nat) (f : XmlNodeData → XmlNodeData) : Heap :=
  { h with nodes := updateEntries n f h.nodes }

/-- `GcCell::allocate`: bind fresh id `h.nextId` to `d`. -/
def addNode (h : Heap) (d : XmlNodeData) : Heap :=
  { nodes := (h.nextId, d) :: h.nodes, nextId := h.nextId + 1 }

/-- Well-formed heap: every bound id is below `nextId` and every child
reference stored in a node is below `nextId` (all handles point into the
allocated region, as is forced in Rust where handles are always live). -/
def WF (h : Heap) : Prop :=
  ∀ p ∈ h.nodes, p.1 < h.nextId ∧ ∀ c ∈ p.2.children, c < h.nextId

instance (h : Heap) : Decidable (WF h) := by
  unfold WF; infer_instance

/-- Field accessor `parent()`. -/
def parentOf (h : Heap) (n : Nat) : Option Nat :=
  (getNode h n).bind (fun d => d.parent)

/-- Field accessor `prev_sibling()`. -/
def prevSiblingOf (h : Heap) (n : Nat) : Option Nat :=
  (getNode h n).bind (fun d => d.prev_sibling)

/-- Field accessor `next_sibling()`. -/
def nextSiblingOf (h : Heap) (n : Nat) : Option Nat :=
  (getNode h n).bind (fun d => d.next_sibling)

/-- The `children` vector of a node (empty for a dangling handle, which
cannot arise in the Rust code). -/
def childrenOf (h : Heap) (n : Nat) : List Nat :=
  ((getNode h n).map (fun d => d.children)).getD []

/-- `children_len()`. -/
def children_len (h : Heap) (n : Nat) : Nat :=
  (childrenOf h n).length

/-- The attribute table of a node. -/
def attrsOf (h : Heap) (n : Nat) : List (String × String) :=
  ((getNode h n).map (fun d => d.attributes)).getD []

/-- `set_prev_sibling`. -/
def set_prev_sibling (h : Heap) (n : Nat) (v : Option Nat) : Heap :=
  modifyNode h n (fun d => { d with prev_sibling := v })

/-- `set_next_sibling`. -/
def set_next_sibling (h : Heap) (n : Nat) (v : Option Nat) : Heap :=
  modifyNode h n (fun d => { d with next_sibling := v })

/-- The parent-field write in `insert_child` (`child.0.write(mc).parent = ...`). -/
def setParent (h : Heap) (n : Nat) (v : Option Nat) : Heap :=
  modifyNode h n (fun d => { d with parent := v })

/-- Modelled from the spec: the ancestor walk of `AnscIter` (the iterator
lives in `xml/iterators.rs`, outside the provided sources): "walk `self` then
ancestors outward (closest first)", yielding the node itself first and then
following `parent` links.  Fuelled by heap size so that the walk terminates
even on corrupted heaps; on any heap whose parent chains are acyclic the fuel
is never exhausted. -/
def ancestorsAux (h : Heap) : Nat → Option Nat → List Nat
  | 0, _ => []
  | _, none => []
  | fuel + 1, some n => n :: ancestorsAux h fuel (parentOf h n)

/-- `ancestors()`: the node itself, then its parent chain. -/
def ancestors (h : Heap) (n : Nat) : List Nat :=
  ancestorsAux h (h.nodes.length + 1) (some n)

/-- `disown_siblings`: relink the former previous and next siblings to each
other, then clear both sibling links of `n`, in source order. -/
def disown_siblings (h : Heap) (n : Nat) : Heap :=
  let oldPrev := prevSiblingOf h n
  let oldNext := nextSiblingOf h n
  let h1 := match oldPrev with
    | some p => set_next_sibling h p oldNext
    | none => h
  let h2 := match oldNext with
    | some q => set_prev_sibling h1 q oldPrev
    | none => h1
  set_next_sibling (set_prev_sibling h2 n none) n none

/-- `disown_parent`. -/
def disown_parent (h : Heap) (n : Nat) : Heap :=
  setParent h n none

/-- `adopt_siblings`: point the new neighbours at `n`, then set `n`'s own
links, in source order. -/
def adopt_siblings (h : Heap) (n : Nat) (newPrev newNext : Option Nat) : Heap :=
  let h1 := match newPrev with
    | some p => set_next_sibling h p (some n)
    | none => h
  let h2 := match newNext with
    | some q => set_prev_sibling h1 q (some n)
    | none => h1
  set_next_sibling (set_prev_sibling h2 n newPrev) n newNext

/-- `child_position`: index of the first occurrence of `child` in the
children list (the `ChildIter` walk in document order, modelled from the
spec as the `children` sequence itself). -/
def child_position (h : Heap) (p c : Nat) : Option Nat :=
  (childrenOf h p).findIdx? (fun x => x == c)

/-- `orphan_child`: remove `child` from this node's children vector if
present; sibling links are not touched. -/
def orphan_child (h : Heap) (p c : Nat) : Heap :=
  match child_position h p c with
  | some pos => modifyNode h p (fun d => { d with children := d.children.eraseIdx pos })
  | none => h

/-- `Vec::insert`: `none` models the out-of-bounds panic when
`pos > l.length`. -/
def insertAt? : List Nat → Nat → Nat → Option (List Nat)
  | l, 0, a => some (a :: l)
  | [], _ + 1, _ => none
  | x :: l, n + 1, a => (insertAt? l n a).map (fun r => x :: r)

/-- `insert_child`: cyclic-insert check, detach from a different old parent,
set the parent link, splice into the children vector (panicking insert
modelled by `Option`), then link the new siblings. -/
def insert_child (h : Heap) (self pos child : Nat) : Option Heap :=
  if (ancestors h self).any (fun a => a == child) then some h
  else
    let h1 := match parentOf h child with
      | some oldParent => if oldParent ≠ self then orphan_child h oldParent child else h
      | none => h
    let h2 := setParent h1 child (some self)
    match insertAt? (childrenOf h2 self) pos child with
    | none => none
    | some cs =>
      let h3 := modifyNode h2 self (fun d => { d with children := cs })
      let newPrev := match pos with
        | 0 => none
        | q + 1 => cs.get? q
      let newNext := cs.get? (pos + 1)
      some (adopt_siblings h3 child newPrev newNext)

/-- `append_child`: insert at the current children length. -/
def append_child (h : Heap) (self child : Nat) : Option Heap :=
  insert_child h self (children_len h self) child

/-- `remove_node`: no-op without a parent; otherwise remove from the parent's
children vector (the `unwrap` on `child_position` modelled by `Option`),
relink the former siblings, and clear parent. -/
def remove_node (h : Heap) (n : Nat) : Option Heap :=
  match parentOf h n with
  | none => some h
  | some p =>
    match child_position h p n with
    | none => none
    | some pos =>
      let h1 := modifyNode h p (fun d => { d with children := d.children.eraseIdx pos })
      let h2 := disown_siblings h1 n
      some (disown_parent h2 n)

/-- `BTreeMap::insert` on the key-sorted association list: overwrite an
existing key or insert at the sorted position. -/
def attrsInsert : List (String × String) → String → String → List (String × String)
  | [], k, v => [(k, v)]
  | (k', v') :: rest, k, v =>
    if k = k' then (k, v) :: rest
    else if k < k' then (k, v) :: (k', v') :: rest
    else (k', v') :: attrsInsert rest k v

/-- `attribute_value`: `BTreeMap::get`. -/
def attribute_value (h : Heap) (n : Nat) (k : String) : Option String :=
  ((attrsOf h n).find? (fun p => p.1 == k)).map (fun p => p.2)

/-- `set_attribute_value`: `BTreeMap::insert` through the node handle. -/
def set_attribute_value (h : Heap) (n : Nat) (k v : String) : Heap :=
  modifyNode h n (fun d => { d with attributes := attrsInsert d.attributes k v })

/-- `introduce_script_object`: the `assert!` that the slot is still empty is
modelled by `none` (panic) when a script object is already bound. -/
def introduce_script_object (h : Heap) (n : Nat) (obj : Nat) : Option Heap :=
  match getNode h n with
  | none => none
  | some d =>
    match d.script_object with
    | some _ => none
    | none => some (modifyNode h n (fun d' => { d' with script_object := some obj }))

/-- Modelled from the spec: the escaping rule of the external
`quick_xml::escape::escape` used by the serializer — the characters `<`,
`>`, `&`, `'` and `"` are replaced by their XML entities. -/
def escapeChar (c : Char) : String :=
  if c = '<' then "&lt;"
  else if c = '>' then "&gt;"
  else if c = '&' then "&amp;"
  else if c = Char.ofNat 39 then "&apos;"
  else if c = Char.ofNat 34 then "&quot;"
  else String.singleton c

/-- Escape a whole string character by character. -/
def escapeStr (s : String) : String :=
  String.join (s.toList.map escapeChar)

/-- `write_node_to_string`: pre-order rendering.  The `unwrap` on the text
node's value is modelled by `Option`; the recursion over children is fuelled
(the Rust recursion terminates because trees are acyclic at runtime). -/
def write_node_to_string : Nat → Heap → Nat → Option String
  | 0, _, _ => none
  | fuel + 1, h, n =>
    match getNode h n with
    | none => none
    | some d =>
      if d.node_type = ELEMENT_NODE then
        match d.node_value with
        | some tagName =>
          let attrsStr := String.join (d.attributes.map
            (fun p => " " ++ p.1 ++ "=\"" ++ escapeStr p.2 ++ "\""))
          if d.children.isEmpty then
            some ("<" ++ tagName ++ attrsStr ++ " />")
          else
            ((d.children.mapM (fun c => write_node_to_string fuel h c)).map
              (fun parts => "<" ++ tagName ++ attrsStr ++ ">" ++
                String.join parts ++ "</" ++ tagName ++ ">"))
        | none =>
          (d.children.mapM (fun c => write_node_to_string fuel h c)).map String.join
      else
        (d.node_value).map escapeStr

/-- `into_string`: render the node with enough fuel for any acyclic tree in
the heap. -/
def into_string (h : Heap) (n : Nat) : Option String :=
  write_node_to_string (h.nodes.length + 1) h n

/-- The walk of `lookup_uri_for_namespace` over a list of nodes: per node,
first the `xmlns` check (only when the namespace is empty), then the
`xmlns:<namespace>` check. -/
def lookupUriWalk (h : Heap) (ns attributeName : String) : List Nat → Option String
  | [] => none
  | node :: rest =>
    match (if ns.isEmpty then attribute_value h node "xmlns" else none) with
    | some url => some url
    | none =>
      match attribute_value h node attributeName with
      | some url => some url
      | none => lookupUriWalk h ns attributeName rest

/-- `lookup_uri_for_namespace`: build `xmlns:<namespace>` once, then walk the
ancestors. -/
def lookup_uri_for_namespace (h : Heap) (n : Nat) (ns : String) : Option String :=
  lookupUriWalk h ns ("xmlns:" ++ ns) (ancestors h n)

/-- `WStr::starts_with` on code units, modelled on the character list. -/
def strStartsWith (s pre : String) : Bool :=
  pre.data.isPrefixOf s.data

/-- The slice `attr[n..]` on code units, modelled on the character list. -/
def strDropUnits (s : String) (n : Nat) : String :=
  String.mk (s.data.drop n)

/-- The inner attribute scan of `lookup_namespace_for_uri`: first attribute
(in map order) whose value equals the URI and whose key is `xmlns` or starts
with `xmlns:`; other attributes are skipped. -/
def findNamespaceInAttrs (uri : String) : List (String × String) → Option String
  | [] => none
  | (attr, attrValue) :: rest =>
    if attrValue == uri then
      if attr == "xmlns" then some ""
      else if strStartsWith attr "xmlns:" then some (strDropUnits attr 6)
      else findNamespaceInAttrs uri rest
    else findNamespaceInAttrs uri rest

/-- The ancestor walk of `lookup_namespace_for_uri`. -/
def lookupNsWalk (h : Heap) (uri : String) : List Nat → Option String
  | [] => none
  | node :: rest =>
    match findNamespaceInAttrs uri (attrsOf h node) with
    | some r => some r
    | none => lookupNsWalk h uri rest

/-- `lookup_namespace_for_uri`. -/
def lookup_namespace_for_uri (h : Heap) (n : Nat) (uri : String) : Option String :=
  lookupNsWalk h uri (ancestors h n)

/-- The node data allocated by `duplicate` before the deep loop: fresh
unparented node with copied kind, value and attribute table. -/
def dupdata (h : Heap) (n : Nat) : XmlNodeData :=
  { script_object := none
    attributes_script_object := none
    parent := none
    prev_sibling := none
    next_sibling := none
    node_type := ((getNode h n).map (fun d => d.node_type)).getD 0
    node_value := (getNode h n).bind (fun d => d.node_value)
    attributes := ((getNode h n).map (fun d => d.attributes)).getD []
    children := [] }

mutual

/-- `duplicate`: allocate the clone, then (when `deep`) duplicate each child
and insert it at the running position.  Fuelled recursion; the Rust recursion
terminates because runtime trees are acyclic. -/
def duplicate : Nat → Heap → Nat → Bool → Heap × Nat
  | fuel, h, n, deep =>
    let c := h.nextId
    let h1 := addNode h (dupdata h n)
    if deep then
      match fuel with
      | 0 => (h1, c)
      | fuel + 1 => dupChildren fuel (childrenOf h n) 0 h1 c
    else (h1, c)
termination_by fuel _h _n _deep => (fuel, 0)

/-- The `for (position, child) in self.children().enumerate()` loop of
`duplicate` (the child walk of `ChildIter`, modelled from the spec as the
`children` sequence in order). -/
def dupChildren : Nat → List Nat → Nat → Heap → Nat → Heap × Nat
  | _, [], _, hh, c => (hh, c)
  | fuel, ch :: rest, pos, hh, c =>
    let r := duplicate fuel hh ch true
    let h2 := (insert_child r.1 c pos r.2).getD r.1
    dupChildren fuel rest (pos + 1) h2 c
termination_by fuel l _pos _hh _c => (fuel, l.length + 1)

end

/-- The structural content of a node (kind, value, attributes, children),
i.e. the fields the serializer and `duplicate` care about, as opposed to the
parent/sibling back-references. -/
def shapeOf (d : XmlNodeData) : Nat × Option String × List (String × String) × List Nat :=
  (d.node_type, d.node_value, d.attributes, d.children)

/-- Structural content stored at id `n`, if any. -/
def shapeAt (h : Heap) (n : Nat) : Option (Nat × Option String × List (String × String) × List Nat) :=
  (getNode h n).map shapeOf

/-- Pure (heap-free) view of a subtree, used to state that a deep duplicate
mirrors its source node's subtree. -/
inductive PureTree where
  | mk (t : Nat) (v : Option String) (attrs : List (String × String)) (cs : List PureTree)

/-- Read the structural content of the subtree rooted at `n`, fuelled. -/
def readTree : Nat → Heap → Nat → PureTree
  | 0, _, _ => .mk 0 none [] []
  | fuel + 1, h, n =>
    match getNode h n with
    | none => .mk 0 none [] []
    | some d => .mk d.node_type d.node_value d.attributes
        (d.children.map (fun c => readTree fuel h c))

/-- `fuelOk fuel h n` states that `fuel` covers the depth of the subtree at
`n`, so that fuelled functions fully traverse it. -/
def fuelOk : Nat → Heap → Nat → Bool
  | 0, _, _ => false
  | fuel + 1, h, n => (childrenOf h n).all (fun c => fuelOk fuel h c)

/-- All node ids reachable in `fuel` steps from `n` through `children` lie in
the interval `[lo, hi)`. -/
def subtreeWithin : Nat → Heap → Nat → Nat → Nat → Bool
  | 0, _, _, _, _ => true
  | fuel + 1, h, n, lo, hi =>
    decide (lo ≤ n) && decide (n < hi) &&
      (childrenOf h n).all (fun c => subtreeWithin fuel h c lo hi)

/-- First `some` produced by `f` along a list of nodes. -/
def firstSome (f : Nat → Option String) : List Nat → Option String
  | [] => none
  | m :: rest =>
    match f m with
    | some v => some v
    | none => firstSome f rest

/-- Modelled from the spec (a second definition written from the spec's
words, compared with the source definition in the C7 theorem): per node, "if
`prefix` is empty, a node whose attribute `xmlns` is set returns that value;
regardless of emptiness, a node whose attribute `xmlns:<prefix>` is set
returns that value". -/
def specNodeUriCheck (h : Heap) (ns : String) (m : Nat) : Option String :=
  if ns.isEmpty && (attribute_value h m "xmlns").isSome then
    attribute_value h m "xmlns"
  else
    attribute_value h m ("xmlns:" ++ ns)

/-- Modelled from the spec: `lookupUriForNamespace` as the spec words it —
walk `self` then ancestors outward, first match wins. -/
def spec_lookup_uri_for_namespace (h : Heap) (n : Nat) (ns : String) : Option String :=
  firstSome (specNodeUriCheck h ns) (ancestors h n)

/-- Modelled from the spec: the namespace determined by one attribute key —
`xmlns` gives the empty prefix, `xmlns:<p>` gives `p`, other keys give
nothing. -/
def specNsFromKey (attrKey : String) : Option String :=
  if attrKey = "xmlns" then some ""
  else if strStartsWith attrKey "xmlns:" then some (strDropUnits attrKey 6)
  else none

/-- Modelled from the spec: per node, scan attributes in ascending key order
and take the first `xmlns`-shaped attribute whose value equals `uri`. -/
def specNodeNsCheck (h : Heap) (uri : String) (m : Nat) : Option String :=
  ((attrsOf h m).filterMap
    (fun p => if p.2 = uri then specNsFromKey p.1 else none)).head?

/-- Modelled from the spec: `lookupNamespaceForUri` as the spec words it. -/
def spec_lookup_namespace_for_uri (h : Heap) (n : Nat) (uri : String) : Option String :=
  firstSome (specNodeNsCheck h uri) (ancestors h n)

/-- Helper to build node records in the example heaps. -/
def mkNodeData (pt pv nx : Option Nat) (t : Nat) (v : Option String)
    (attrs : List (String × String)) (cs : List Nat) : XmlNodeData :=
  { script_object := none
    attributes_script_object := none
    parent := pt
    prev_sibling := pv
    next_sibling := nx
    node_type := t
    node_value := v
    attributes := attrs
    children := cs }

/-- Example heap for C1: parent `0` with children `[1, 2, 3]` correctly
linked, plus an unrelated empty element `4`. -/
def exHeapC1 : Heap :=
  { nodes :=
      [ (0, mkNodeData none none none ELEMENT_NODE (some "p") [] [1, 2, 3])
      , (1, mkNodeData (some 0) none (some 2) ELEMENT_NODE (some "a") [] [])
      , (2, mkNodeData (some 0) (some 1) (some 3) ELEMENT_NODE (some "c") [] [])
      , (3, mkNodeData (some 0) (some 2) none ELEMENT_NODE (some "b") [] [])
      , (4, mkNodeData none none none ELEMENT_NODE (some "q") [] []) ]
    nextId := 5 }

/-- The heap after reparenting node `2` from `0` to `4` in `exHeapC1`. -/
def exAfterC1 : Heap := (insert_child exHeapC1 4 0 2).getD exHeapC1

/-- Example heap for C2 and other witnesses: a single parentless element. -/
def exHeapC2 : Heap :=
  { nodes := [(0, mkNodeData none none none ELEMENT_NODE (some "a") [] [])]
    nextId := 1 }

/-- Example heap for C3: parent `0` with children `[1, 2, 3]`. -/
def exHeapC3 : Heap :=
  { nodes :=
      [ (0, mkNodeData none none none ELEMENT_NODE (some "p") [] [1, 2, 3])
      , (1, mkNodeData (some 0) none (some 2) ELEMENT_NODE (some "c0") [] [])
      , (2, mkNodeData (some 0) (some 1) (some 3) ELEMENT_NODE (some "c1") [] [])
      , (3, mkNodeData (some 0) (some 2) none ELEMENT_NODE (some "c2") [] []) ]
    nextId := 4 }

/-- The heap after `remove_node` of the middle child in `exHeapC3`. -/
def exAfterC3 : Heap := (remove_node exHeapC3 2).getD exHeapC3

/-- Example heap for C5: element `a` with attributes `x="1"`, `y="2"` and a
single text child `hi` (node 1), plus the same element with no children
(node 2), plus a document root (node 3) whose only child is node 2. -/
def exHeapC5 : Heap :=
  { nodes :=
      [ (0, mkNodeData none none none ELEMENT_NODE (some "a") [("x", "1"), ("y", "2")] [1])
      , (1, mkNodeData (some 0) none none TEXT_NODE (some "hi") [] [])
      , (2, mkNodeData (some 3) none none ELEMENT_NODE (some "a") [("x", "1"), ("y", "2")] [])
      , (3, mkNodeData none none none ELEMENT_NODE none [] [2]) ]
    nextId := 4 }

/-- Example heap for C6: a bare text node with markup characters, and an
element whose attribute value contains double quotes. -/
def exHeapC6 : Heap :=
  { nodes :=
      [ (0, mkNodeData none none none TEXT_NODE (some "a<b&c") [] [])
      , (1, mkNodeData none none none ELEMENT_NODE (some "a")
          [("k", "he said \"hi\"")] []) ]
    nextId := 2 }

/-- Example heap for C7/C8: root element `0` carrying
`xmlns:ns="http://example.com"` and `xmlns:in="http://outer.example"`; its
child `1` re-declares `xmlns:in` (shadowing); grandchild `2` has no namespace
attributes.  Node `3` is a standalone element whose attributes exercise the
empty prefix, the lexicographic tie-break, and the skipping of
non-`xmlns`-shaped keys. -/
def exHeapC7 : Heap :=
  { nodes :=
      [ (0, mkNodeData none none none ELEMENT_NODE (some "root")
          [("xmlns:in", "http://outer.example"), ("xmlns:ns", "http://example.com")] [1])
      , (1, mkNodeData (some 0) none none ELEMENT_NODE (some "mid")
          [("xmlns:in", "http://inner.example")] [2])
      , (2, mkNodeData (some 1) none none ELEMENT_NODE (some "leaf") [] [])
      , (3, mkNodeData none none none ELEMENT_NODE (some "solo")
          [ ("href", "http://dup.example")
          , ("xmlns", "http://dup.example")
          , ("xmlns:aa", "http://dup.example") ] []) ]
    nextId := 4 }

/-- Example heap for the C4 witness: element `0` with one text child `1`. -/
def exHeapC4 : Heap :=
  { nodes :=
      [ (0, mkNodeData none none none ELEMENT_NODE (some "a") [("k", "v")] [1])
      , (1, mkNodeData (some 0) none none TEXT_NODE (some "hi") [] []) ]
    nextId := 2 }

/-! ## Basic heap lemmas -/

theorem find?_updateEntries (l : List (Nat × XmlNodeData)) (n m : Nat)
    (f : XmlNodeData → XmlNodeData) :
    ((updateEntries n f l).find? (fun p => p.1 == m)).map (fun p => p.2) =
    if m = n then ((l.find? (fun p => p.1 == m)).map (fun p => p.2)).map f
    else (l.find? (fun p => p.1 == m)).map (fun p => p.2) := by
  induction l with
  | nil => simp only [updateEntries, List.find?_nil]; split <;> simp
  | cons a l ih =>
    simp only [updateEntries]
    by_cases han : a.1 = n
    · rw [if_pos han]
      by_cases hmn : m = n
      · subst hmn
        simp [List.find?_cons, han]
      · have h1 : (a.1 == m) = false := by
          simp only [beq_eq_false_iff_ne, ne_eq, han]
          exact fun hc => hmn hc.symm
        simp only [List.find?_cons, h1, if_neg hmn]
        rw [ih, if_neg hmn]
    · rw [if_neg han]
      by_cases ham : a.1 = m
      · have hmn : ¬ m = n := fun hc => han (ham.trans hc)
        simp [List.find?_cons, ham, hmn]
      · have h1 : (a.1 == m) = false := by simpa using ham
        simp only [List.find?_cons, h1]
        exact ih

theorem getNode_modifyNode (h : Heap) (n m : Nat) (f : XmlNodeData → XmlNodeData) :
    getNode (modifyNode h n f) m =
      if m = n then (getNode h m).map f else getNode h m := by
  unfold getNode modifyNode
  exact find?_updateEntries h.nodes n m f

theorem getNode_modifyNode_self (h : Heap) (n : Nat) (f : XmlNodeData → XmlNodeData) :
    getNode (modifyNode h n f) n = (getNode h n).map f := by
  rw [getNode_modifyNode]; simp

theorem getNode_modifyNode_ne (h : Heap) (n m : Nat) (f : XmlNodeData → XmlNodeData)
    (hm : m ≠ n) : getNode (modifyNode h n f) m = getNode h m := by
  rw [getNode_modifyNode]; simp [hm]

theorem getNode_addNode (h : Heap) (d : XmlNodeData) (m : Nat) :
    getNode (addNode h d) m = if m = h.nextId then some d else getNode h m := by
  by_cases hm : m = h.nextId
  · simp [getNode, addNode, List.find?_cons, hm]
  · have : (h.nextId == m) = false := by
      simp only [beq_eq_false_iff_ne, ne_eq]
      exact fun hc => hm hc.symm
    simp [getNode, addNode, List.find?_cons, this, hm]

theorem getNode_mem (h : Heap) (n : Nat) (d : XmlNodeData)
    (hd : getNode h n = some d) : (n, d) ∈ h.nodes := by
  unfold getNode at hd
  cases hfind : h.nodes.find? (fun q => q.1 == n) with
  | none => simp [hfind] at hd
  | some p =>
    have hmem := List.mem_of_find?_eq_some hfind
    have h1 : p.1 = n := by simpa using List.find?_some hfind
    simp only [hfind, Option.map_some'] at hd
    obtain ⟨a, b⟩ := p
    simp only at h1 hd
    obtain rfl : b = d := Option.some.inj hd
    rw [← h1]
    exact hmem

theorem nextId_modifyNode (h : Heap) (n : Nat) (f : XmlNodeData → XmlNodeData) :
    (modifyNode h n f).nextId = h.nextId := rfl

theorem self_mem_ancestors (h : Heap) (n : Nat) : n ∈ ancestors h n := by
  unfold ancestors ancestorsAux
  exact List.mem_cons_self _ _

theorem any_beq_eq_false {l : List Nat} {b : Nat} (hb : b ∉ l) :
    (l.any (fun a => a == b)) = false := by
  cases hany : l.any (fun a => a == b) with
  | false => rfl
  | true =>
    obtain ⟨x, hx, hxb⟩ := List.any_eq_true.mp hany
    have hxb' : x = b := by simpa using hxb
    exact absurd (hxb' ▸ hx) hb

theorem getNode_orphan_child_ne (h : Heap) (p c m : Nat) (hm : m ≠ p) :
    getNode (orphan_child h p c) m = getNode h m := by
  unfold orphan_child
  cases child_position h p c with
  | none => rfl
  | some pos => exact getNode_modifyNode_ne h p m _ hm

theorem insertAt?_isSome (l : List Nat) (i a : Nat) :
    (insertAt? l i a).isSome = true ↔ i ≤ l.length := by
  induction l generalizing i with
  | nil =>
    cases i with
    | zero => simp [insertAt?]
    | succ j => simp [insertAt?]
  | cons x l ih =>
    cases i with
    | zero => simp [insertAt?]
    | succ j =>
      have hrec := ih j
      cases hi : insertAt? l j a with
      | none =>
        rw [hi] at hrec
        simp only [insertAt?, hi, Option.map_none', Option.isSome_none,
          List.length_cons, Bool.false_eq_true, false_iff]
        simp only [Option.isSome_none, Bool.false_eq_true, false_iff] at hrec
        omega
      | some r =>
        rw [hi] at hrec
        simp only [insertAt?, hi, Option.map_some', Option.isSome_some,
          List.length_cons, true_iff]
        simp only [Option.isSome_some, true_iff] at hrec
        omega

theorem insertAt?_length (l : List Nat) (a : Nat) :
    insertAt? l l.length a = some (l ++ [a]) := by
  induction l with
  | nil => rfl
  | cons x l ih => simp [insertAt?, ih]

/-! ## Claim C2 -/

/-- C2: for every container `a`, position `pos`, and node `b` that is `a`
itself or an ancestor of `a` (the ancestor walk includes `a`),
`insert_child h a pos b` is a no-op: it returns the heap unchanged and
surfaces no error and no panic. -/
theorem insert_child_cyclic_noop (h : Heap) (a pos b : Nat)
    (hmem : b ∈ ancestors h a) :
    insert_child h a pos b = some h := by
  have hany : (ancestors h a).any (fun x => x == b) = true :=
    List.any_eq_true.mpr ⟨b, hmem, by simp⟩
  simp [insert_child, hany]

/-- Witness for C2 at a concrete heap: inserting the (parentless) node `0`
into itself, even at an out-of-range position, leaves the heap unchanged. -/
theorem insert_child_cyclic_noop_witness :
    insert_child exHeapC2 0 5 0 = some exHeapC2 :=
  insert_child_cyclic_noop exHeapC2 0 5 0 (by decide)

/-! ## Claim C3 -/

/-- C3: `remove_node` is a no-op when the node has no parent; otherwise (as
evaluated on a parent with children `[c0, c1, c2]`, removing `c1`) it removes
the node from the parent's children, relinks the former previous and next
siblings to each other, and clears the node's parent and sibling links. -/
theorem remove_node_spec :
    (∀ h n, parentOf h n = none → remove_node h n = some h) ∧
    ((remove_node exHeapC3 2).isSome = true ∧
      childrenOf exAfterC3 0 = [1, 3] ∧
      nextSiblingOf exAfterC3 1 = some 3 ∧
      prevSiblingOf exAfterC3 3 = some 1 ∧
      parentOf exAfterC3 2 = none ∧
      prevSiblingOf exAfterC3 2 = none ∧
      nextSiblingOf exAfterC3 2 = none) := by
  constructor
  · intro h n hp
    unfold remove_node
    rw [hp]
  · decide

/-- Witness for C3: applying the no-parent branch at a concrete input (node
`0` of `exHeapC3` has no parent). -/
theorem remove_node_spec_witness : remove_node exHeapC3 0 = some exHeapC3 :=
  remove_node_spec.1 exHeapC3 0 (by decide)

/-! ## Claim C9 -/

/-- C9: binding a wrapper object is single-assignment — with no wrapper bound
the call records the wrapper; with a wrapper already bound the call fails
fatally (a panic, modelled by `none`) and never silently overwrites. -/
theorem introduce_script_object_spec (h : Heap) (n obj : Nat) (d : XmlNodeData)
    (hd : getNode h n = some d) :
    (d.script_object = none →
      ∃ h', introduce_script_object h n obj = some h' ∧
        getNode h' n = some { d with script_object := some obj }) ∧
    (d.script_object ≠ none → introduce_script_object h n obj = none) := by
  constructor
  · intro hnone
    refine ⟨modifyNode h n (fun d' => { d' with script_object := some obj }), ?_, ?_⟩
    · simp [introduce_script_object, hd, hnone]
    · rw [getNode_modifyNode_self, hd]
      rfl
  · intro hsome
    cases hso : d.script_object with
    | none => exact absurd hso hsome
    | some x => simp [introduce_script_object, hd, hso]

/-- Witness for C9 at a concrete heap: node `0` of `exHeapC2` has no wrapper
bound, so binding wrapper `7` succeeds there. -/
theorem introduce_script_object_spec_witness :
    ((mkNodeData none none none ELEMENT_NODE (some "a") [] []).script_object = none →
      ∃ h', introduce_script_object exHeapC2 0 7 = some h' ∧
        getNode h' 0 = some { mkNodeData none none none ELEMENT_NODE (some "a") [] [] with
          script_object := some 7 }) ∧
    ((mkNodeData none none none ELEMENT_NODE (some "a") [] []).script_object ≠ none →
      introduce_script_object exHeapC2 0 7 = none) :=
  introduce_script_object_spec exHeapC2 0 7
    (mkNodeData none none none ELEMENT_NODE (some "a") [] []) (by decide)

/-! ## Claim C10 -/

/-- C10: `insert_child` is partial in its position argument: for a container
that exists in the heap and a non-cyclic child, the call succeeds exactly
when the position is at most the container's children length (the
detachment step edits only a *different* old parent, so it never changes
that length), and panics (out-of-bounds `Vec::insert`, modelled by `none`)
when the position exceeds it. -/
theorem insert_child_position_partial (h : Heap) (self pos child : Nat)
    (d : XmlNodeData) (hd : getNode h self = some d)
    (hnc : child ∉ ancestors h self) :
    ((insert_child h self pos child).isSome = true ↔ pos ≤ d.children.length) := by
  have hne : child ≠ self := fun he => hnc (he ▸ self_mem_ancestors h self)
  have hany : (ancestors h self).any (fun a => a == child) = false :=
    any_beq_eq_false hnc
  have hd1 : getNode (match parentOf h child with
      | some oldParent => if oldParent ≠ self then orphan_child h oldParent child else h
      | none => h) self = some d := by
    cases hp : parentOf h child with
    | none => exact hd
    | some op =>
      show getNode (if op ≠ self then orphan_child h op child else h) self = some d
      by_cases hop : op = self
      · rw [if_neg (fun hc => hc hop)]
        exact hd
      · rw [if_pos hop]
        rw [getNode_orphan_child_ne h op child self (fun hc => hop hc.symm)]
        exact hd
  have hch : ∀ h1 : Heap, getNode h1 self = some d →
      childrenOf (setParent h1 child (some self)) self = d.children := by
    intro h1 hh1
    unfold childrenOf setParent
    rw [getNode_modifyNode_ne _ _ _ _ (fun hc => hne hc.symm), hh1]
    rfl
  unfold insert_child
  simp only [hany, Bool.false_eq_true, if_false]
  rw [hch _ hd1]
  have hiff := insertAt?_isSome d.children pos child
  cases hins : insertAt? d.children pos child with
  | none =>
    rw [hins] at hiff
    simp only [hins, Option.isSome_none, Bool.false_eq_true, false_iff]
    simp only [Option.isSome_none, Bool.false_eq_true, false_iff] at hiff
    exact hiff
  | some cs =>
    rw [hins] at hiff
    simp only [hins, Option.isSome_some, true_iff]
    simp only [Option.isSome_some, true_iff] at hiff
    exact hiff

/-- Witness for C10: inserting node `3` (whose old parent is `0`) into the
childless node `1` of `exHeapC3` at position `0` succeeds. -/
theorem insert_child_position_partial_witness :
    ((insert_child exHeapC3 1 0 3).isSome = true ↔
      0 ≤ (mkNodeData (some 0) none (some 2) ELEMENT_NODE (some "c0") [] []).children.length) :=
  insert_child_position_partial exHeapC3 1 0 3
    (mkNodeData (some 0) none (some 2) ELEMENT_NODE (some "c0") [] [])
    (by decide) (by decide)

/-! ## Claim C1 -/

/-- C1 is refuted by this evaluation: reparenting node `2` from parent `0`
(children `[1, 2, 3]`) to parent `4` removes `2` from `0`'s children, but
leaves `1`'s `next_sibling` and `3`'s `prev_sibling` still pointing at `2`,
so invariant I2 does not hold for the old parent afterwards (the chain for
`children = [1, 3]` would require `next_sibling` of `1` to be `3`). -/
theorem insert_child_reparent_stale_siblings :
    (insert_child exHeapC1 4 0 2).isSome = true ∧
    childrenOf exAfterC1 0 = [1, 3] ∧
    childrenOf exAfterC1 4 = [2] ∧
    parentOf exAfterC1 2 = some 4 ∧
    nextSiblingOf exAfterC1 1 = some 2 ∧
    prevSiblingOf exAfterC1 3 = some 2 := by decide

/-! ## Claims C5 and C6 -/

/-- C5: the serializer renders an element with a tag name as `<`, tag,
attributes in ascending key order as ` key="value"`, then ` />` without
children or `>` children `</tag>` with children; an element with no tag name
renders only its children.  Evaluated on the spec's examples: element `a`
with attributes `x="1"`, `y="2"` and text child `hi`; the same element with
no children; and a document root containing the latter. -/
theorem into_string_examples :
    into_string exHeapC5 0 = some "<a x=\"1\" y=\"2\">hi</a>" ∧
    into_string exHeapC5 2 = some "<a x=\"1\" y=\"2\" />" ∧
    into_string exHeapC5 3 = some "<a x=\"1\" y=\"2\" />" := by decide

/-- C6: serialization escapes text content and attribute values: the text
node `a<b&c` renders as `a&lt;b&amp;c` with no surrounding markup, and an
attribute value containing double quotes is escaped so that the escaped
value contains no unescaped `"` character. -/
theorem into_string_escaping :
    into_string exHeapC6 0 = some "a&lt;b&amp;c" ∧
    into_string exHeapC6 1 = some "<a k=\"he said &quot;hi&quot;\" />" ∧
    (escapeStr "he said \"hi\"").toList.all (fun c => !(c == Char.ofNat 34)) = true := by
  decide

/-! ## Claims C7 and C8 -/

theorem lookupUriWalk_eq_spec (h : Heap) (ns : String) (l : List Nat) :
    lookupUriWalk h ns ("xmlns:" ++ ns) l = firstSome (specNodeUriCheck h ns) l := by
  induction l with
  | nil => rfl
  | cons m rest ih =>
    simp only [lookupUriWalk, firstSome, specNodeUriCheck]
    by_cases hns : ns.isEmpty
    · cases hx : attribute_value h m "xmlns" with
      | some v => simp [hns, hx]
      | none =>
        cases hy : attribute_value h m ("xmlns:" ++ ns) with
        | some v => simp [hns, hx, hy]
        | none => simp [hns, hx, hy, ih]
    · cases hy : attribute_value h m ("xmlns:" ++ ns) with
      | some v => simp [hns, hy]
      | none => simp [hns, hy, ih]

/-- C7: `lookup_uri_for_namespace` walks self then ancestors outward; its
per-node check returns `xmlns` for the empty prefix and `xmlns:<prefix>`
otherwise, first match winning — proved equal to the definition transcribed
from the spec's words, and evaluated on the spec's example (a root declaring
`xmlns:ns="http://example.com"` and a bare descendant), on a shadowing
declaration, on the empty prefix, and on a missing prefix. -/
theorem lookup_uri_for_namespace_spec :
    (∀ h n ns, lookup_uri_for_namespace h n ns = spec_lookup_uri_for_namespace h n ns) ∧
    lookup_uri_for_namespace exHeapC7 2 "ns" = some "http://example.com" ∧
    lookup_uri_for_namespace exHeapC7 2 "in" = some "http://inner.example" ∧
    lookup_uri_for_namespace exHeapC7 3 "" = some "http://dup.example" ∧
    lookup_uri_for_namespace exHeapC7 2 "zz" = none := by
  refine ⟨fun h n ns => lookupUriWalk_eq_spec h ns (ancestors h n), ?_, ?_, ?_, ?_⟩ <;>
    decide

theorem findNamespaceInAttrs_eq_spec (uri : String) (l : List (String × String)) :
    findNamespaceInAttrs uri l =
      (l.filterMap (fun p => if p.2 = uri then specNsFromKey p.1 else none)).head? := by
  induction l with
  | nil => rfl
  | cons p rest ih =>
    obtain ⟨k, v⟩ := p
    simp only [findNamespaceInAttrs, List.filterMap_cons]
    by_cases hv : v = uri
    · by_cases hk : k = "xmlns"
      · simp [hv, hk, specNsFromKey]
      · by_cases hpre : strStartsWith k "xmlns:" = true
        · simp [hv, hk, hpre, specNsFromKey]
        · have hf : specNsFromKey k = none := by simp [specNsFromKey, hk, hpre]
          simp [hv, hk, hpre, hf, ih]
    · simp [hv, ih]

theorem lookupNsWalk_eq_spec (h : Heap) (uri : String) (l : List Nat) :
    lookupNsWalk h uri l = firstSome (specNodeNsCheck h uri) l := by
  induction l with
  | nil => rfl
  | cons m rest ih =>
    simp only [lookupNsWalk, firstSome, specNodeNsCheck]
    rw [findNamespaceInAttrs_eq_spec]
    cases ((attrsOf h m).filterMap
        (fun p => if p.2 = uri then specNsFromKey p.1 else none)).head? with
    | some r => rfl
    | none => exact ih

/-- C8: `lookup_namespace_for_uri` walks self then ancestors outward,
scanning each node's attributes in ascending key order; the first
`xmlns`-shaped attribute whose value equals the URI determines the result
(`xmlns` gives the empty prefix, `xmlns:<p>` gives `p`, other keys are
skipped) — proved equal to the definition transcribed from the spec's words,
and evaluated on the spec's example, on the lexicographic tie-break between
`xmlns` and `xmlns:aa` mapping to the same URI, and on a missing URI. -/
theorem lookup_namespace_for_uri_spec :
    (∀ h n uri, lookup_namespace_for_uri h n uri = spec_lookup_namespace_for_uri h n uri) ∧
    lookup_namespace_for_uri exHeapC7 2 "http://example.com" = some "ns" ∧
    lookup_namespace_for_uri exHeapC7 2 "http://inner.example" = some "in" ∧
    lookup_namespace_for_uri exHeapC7 3 "http://dup.example" = some "" ∧
    lookup_namespace_for_uri exHeapC7 2 "http://nowhere.example" = none := by
  refine ⟨fun h n uri => lookupNsWalk_eq_spec h uri (ancestors h n), ?_, ?_, ?_, ?_⟩ <;>
    decide

/-! ## Claim C4: infrastructure -/

theorem updateEntries_mem {l : List (Nat × XmlNodeData)} {n : Nat}
    {f : XmlNodeData → XmlNodeData} {p : Nat × XmlNodeData}
    (hp : p ∈ updateEntries n f l) :
    p ∈ l ∨ ∃ q ∈ l, q.1 = n ∧ p = (q.1, f q.2) := by
  induction l with
  | nil => simp [updateEntries] at hp
  | cons a l ih =>
    simp only [updateEntries, List.mem_cons] at hp
    cases hp with
    | inl hhead =>
      by_cases ha : a.1 = n
      · rw [if_pos ha] at hhead
        exact Or.inr ⟨a, List.mem_cons_self a l, ha, hhead⟩
      · rw [if_neg ha] at hhead
        exact Or.inl (hhead ▸ List.mem_cons_self a l)
    | inr htail =>
      cases ih htail with
      | inl h1 => exact Or.inl (List.mem_cons_of_mem a h1)
      | inr h2 =>
        obtain ⟨q, hq, hqn, hpq⟩ := h2
        exact Or.inr ⟨q, List.mem_cons_of_mem a hq, hqn, hpq⟩

theorem WF_modifyNode {h : Heap} {n : Nat} {f : XmlNodeData → XmlNodeData}
    (hwf : WF h)
    (hf : ∀ d, (∀ c ∈ d.children, c < h.nextId) → ∀ c ∈ (f d).children, c < h.nextId) :
    WF (modifyNode h n f) := by
  intro p hp
  rcases updateEntries_mem hp with hmem | ⟨q, hq, hqn, rfl⟩
  · exact hwf p hmem
  · obtain ⟨h1, h2⟩ := hwf q hq
    exact ⟨h1, hf q.2 h2⟩

theorem WF_addNode {h : Heap} {d : XmlNodeData} (hwf : WF h)
    (hd : ∀ c ∈ d.children, c < h.nextId) : WF (addNode h d) := by
  intro p hp
  simp only [addNode, List.mem_cons] at hp
  cases hp with
  | inl h1 =>
    subst h1
    exact ⟨Nat.lt_succ_self _, fun c hc => Nat.lt_succ_of_lt (hd c hc)⟩
  | inr h2 =>
    obtain ⟨h3, h4⟩ := hwf p h2
    exact ⟨Nat.lt_succ_of_lt h3, fun c hc => Nat.lt_succ_of_lt (h4 c hc)⟩

theorem WF_children_lt {h : Heap} {n : Nat} {d : XmlNodeData} (hwf : WF h)
    (hd : getNode h n = some d) : n < h.nextId ∧ ∀ c ∈ d.children, c < h.nextId :=
  hwf (n, d) (getNode_mem h n d hd)

theorem childrenOf_lt {h : Heap} {n : Nat} (hwf : WF h) :
    ∀ c ∈ childrenOf h n, c < h.nextId := by
  intro c hc
  unfold childrenOf at hc
  cases hd : getNode h n with
  | none => rw [hd] at hc; simp at hc
  | some d =>
    rw [hd] at hc
    exact (WF_children_lt hwf hd).2 c hc

theorem childrenOf_eq {h : Heap} {m : Nat} {d : XmlNodeData}
    (hd : getNode h m = some d) : childrenOf h m = d.children := by
  unfold childrenOf
  rw [hd]
  rfl

theorem shapeAt_modifyNode_preserved {h : Heap} {n : Nat}
    {f : XmlNodeData → XmlNodeData} (hf : ∀ d, shapeOf (f d) = shapeOf d) (m : Nat) :
    shapeAt (modifyNode h n f) m = shapeAt h m := by
  unfold shapeAt
  rw [getNode_modifyNode]
  by_cases hm : m = n
  · rw [if_pos hm]
    cases getNode h m with
    | none => rfl
    | some d => simp [hf d]
  · rw [if_neg hm]

theorem shapeAt_set_next_sibling (h : Heap) (p : Nat) (v : Option Nat) (m : Nat) :
    shapeAt (set_next_sibling h p v) m = shapeAt h m := by
  unfold set_next_sibling
  apply shapeAt_modifyNode_preserved
  intro d
  rfl

theorem shapeAt_set_prev_sibling (h : Heap) (p : Nat) (v : Option Nat) (m : Nat) :
    shapeAt (set_prev_sibling h p v) m = shapeAt h m := by
  unfold set_prev_sibling
  apply shapeAt_modifyNode_preserved
  intro d
  rfl

theorem shapeAt_setParent (h : Heap) (p : Nat) (v : Option Nat) (m : Nat) :
    shapeAt (setParent h p v) m = shapeAt h m := by
  unfold setParent
  apply shapeAt_modifyNode_preserved
  intro d
  rfl

theorem childrenOf_frame {h1 h2 : Heap} {N : Nat}
    (hframe : ∀ m, m < N → getNode h2 m = getNode h1 m) {n : Nat} (hn : n < N) :
    childrenOf h2 n = childrenOf h1 n := by
  unfold childrenOf
  rw [hframe n hn]

theorem fuelOk_frame : ∀ (fuel : Nat) (h1 h2 : Heap), WF h1 →
    (∀ m, m < h1.nextId → getNode h2 m = getNode h1 m) →
    ∀ n, n < h1.nextId → fuelOk fuel h1 n = true → fuelOk fuel h2 n = true := by
  intro fuel
  induction fuel with
  | zero => intro h1 h2 _ _ n _ hf; exact hf
  | succ f ih =>
    intro h1 h2 hwf hframe n hn hf
    simp only [fuelOk] at hf ⊢
    rw [childrenOf_frame hframe hn]
    rw [List.all_eq_true] at hf ⊢
    intro c hc
    exact ih h1 h2 hwf hframe c (childrenOf_lt hwf c hc) (hf c hc)

theorem readTree_frame : ∀ (fuel : Nat) (h1 h2 : Heap), WF h1 →
    (∀ m, m < h1.nextId → getNode h2 m = getNode h1 m) →
    ∀ n, n < h1.nextId → readTree fuel h2 n = readTree fuel h1 n := by
  intro fuel
  induction fuel with
  | zero => intros; rfl
  | succ f ih =>
    intro h1 h2 hwf hframe n hn
    simp only [readTree]
    rw [hframe n hn]
    cases hd : getNode h1 n with
    | none => rfl
    | some d =>
      simp only []
      congr 1
      apply List.map_congr_left
      intro c hc
      exact ih h1 h2 hwf hframe c ((WF_children_lt hwf hd).2 c hc)

theorem subtreeWithin_mono : ∀ (fuel : Nat) (h : Heap) (n lo hi lo' hi' : Nat),
    lo' ≤ lo → hi ≤ hi' → subtreeWithin fuel h n lo hi = true →
    subtreeWithin fuel h n lo' hi' = true := by
  intro fuel
  induction fuel with
  | zero => intros; rfl
  | succ f ih =>
    intro h n lo hi lo' hi' hlo hhi hsub
    simp only [subtreeWithin, Bool.and_eq_true, decide_eq_true_eq,
      List.all_eq_true] at hsub ⊢
    obtain ⟨⟨h1, h2⟩, h3⟩ := hsub
    exact ⟨⟨by omega, by omega⟩, fun c hc => ih h c lo hi lo' hi' hlo hhi (h3 c hc)⟩

theorem readTree_congr_within : ∀ (fuel : Nat) (h1 h2 : Heap) (n lo hi : Nat),
    subtreeWithin fuel h1 n lo hi = true →
    (∀ m, lo ≤ m → m < hi → shapeAt h2 m = shapeAt h1 m) →
    readTree fuel h2 n = readTree fuel h1 n ∧
      subtreeWithin fuel h2 n lo hi = true := by
  intro fuel
  induction fuel with
  | zero => intros; exact ⟨rfl, rfl⟩
  | succ f ih =>
    intro h1 h2 n lo hi hsub hagree
    simp only [subtreeWithin, Bool.and_eq_true, decide_eq_true_eq,
      List.all_eq_true] at hsub
    obtain ⟨⟨hlo, hhi⟩, hch⟩ := hsub
    have hsh : shapeAt h2 n = shapeAt h1 n := hagree n hlo hhi
    cases hd1 : getNode h1 n with
    | none =>
      have hd2 : getNode h2 n = none := by
        have : shapeAt h2 n = none := by rw [hsh]; unfold shapeAt; rw [hd1]; rfl
        unfold shapeAt at this
        exact Option.map_eq_none'.mp this
      constructor
      · simp only [readTree, hd1, hd2]
      · simp only [subtreeWithin, Bool.and_eq_true, decide_eq_true_eq, List.all_eq_true]
        refine ⟨⟨hlo, hhi⟩, ?_⟩
        intro c hc
        unfold childrenOf at hc
        rw [hd2] at hc
        simp at hc
    | some d1 =>
      have hd2 : ∃ d2, getNode h2 n = some d2 ∧ shapeOf d2 = shapeOf d1 := by
        have h1s : shapeAt h2 n = some (shapeOf d1) := by
          rw [hsh]; unfold shapeAt; rw [hd1]; rfl
        unfold shapeAt at h1s
        obtain ⟨d2, hget, hshape⟩ := Option.map_eq_some'.mp h1s
        exact ⟨d2, hget, hshape⟩
      obtain ⟨d2, hget2, hshape⟩ := hd2
      have hfields : d2.node_type = d1.node_type ∧ d2.node_value = d1.node_value ∧
          d2.attributes = d1.attributes ∧ d2.children = d1.children := by
        unfold shapeOf at hshape
        simp only [Prod.mk.injEq] at hshape
        exact ⟨hshape.1, hshape.2.1, hshape.2.2.1, hshape.2.2.2⟩
      obtain ⟨hft, hfv, hfa, hfc⟩ := hfields
      have hchof1 : childrenOf h1 n = d1.children := by
        unfold childrenOf; rw [hd1]; rfl
      have hchof2 : childrenOf h2 n = d1.children := by
        unfold childrenOf; rw [hget2]; simp [hfc]
      have hrec : ∀ c ∈ d1.children,
          readTree f h2 c = readTree f h1 c ∧ subtreeWithin f h2 c lo hi = true := by
        intro c hc
        exact ih h1 h2 c lo hi (hch c (hchof1 ▸ hc)) hagree
      constructor
      · simp only [readTree, hd1, hget2, hft, hfv, hfa, hfc]
        congr 1
        apply List.map_congr_left
        intro c hc
        exact (hrec c hc).1
      · simp only [subtreeWithin, Bool.and_eq_true, decide_eq_true_eq, List.all_eq_true]
        refine ⟨⟨hlo, hhi⟩, ?_⟩
        intro c hc
        exact (hrec c (hchof2 ▸ hc)).2

theorem ancestors_parentless {h : Heap} {c : Nat} (hp : parentOf h c = none) :
    ancestors h c = [c] := by
  unfold ancestors
  rw [show ancestorsAux h (h.nodes.length + 1) (some c)
      = c :: ancestorsAux h h.nodes.length (parentOf h c) from rfl]
  rw [hp]
  cases h.nodes.length <;> rfl

theorem getNode_set_next_sibling_ne (h : Heap) (n m : Nat) (v : Option Nat)
    (hm : m ≠ n) : getNode (set_next_sibling h n v) m = getNode h m := by
  unfold set_next_sibling
  exact getNode_modifyNode_ne h n m _ hm

theorem getNode_set_prev_sibling_ne (h : Heap) (n m : Nat) (v : Option Nat)
    (hm : m ≠ n) : getNode (set_prev_sibling h n v) m = getNode h m := by
  unfold set_prev_sibling
  exact getNode_modifyNode_ne h n m _ hm

theorem getNode_setParent_ne (h : Heap) (n m : Nat) (v : Option Nat)
    (hm : m ≠ n) : getNode (setParent h n v) m = getNode h m := by
  unfold setParent
  exact getNode_modifyNode_ne h n m _ hm

theorem WF_set_next_sibling {h : Heap} (n : Nat) (v : Option Nat) (hwf : WF h) :
    WF (set_next_sibling h n v) :=
  WF_modifyNode hwf (fun _ hd => hd)

theorem WF_set_prev_sibling {h : Heap} (n : Nat) (v : Option Nat) (hwf : WF h) :
    WF (set_prev_sibling h n v) :=
  WF_modifyNode hwf (fun _ hd => hd)

theorem WF_setParent {h : Heap} (n : Nat) (v : Option Nat) (hwf : WF h) :
    WF (setParent h n v) :=
  WF_modifyNode hwf (fun _ hd => hd)

theorem adopt_siblings_facts (h : Heap) (n : Nat) (a b : Option Nat) :
    (∀ m, (∀ x, a = some x → m ≠ x) → (∀ x, b = some x → m ≠ x) → m ≠ n →
      getNode (adopt_siblings h n a b) m = getNode h m) ∧
    (∀ m, shapeAt (adopt_siblings h n a b) m = shapeAt h m) ∧
    (adopt_siblings h n a b).nextId = h.nextId ∧
    (WF h → WF (adopt_siblings h n a b)) := by
  unfold adopt_siblings
  cases a with
  | none =>
    cases b with
    | none =>
      refine ⟨?_, ?_, rfl, ?_⟩
      · intro m _ _ hmn
        rw [getNode_set_next_sibling_ne _ _ _ _ hmn,
          getNode_set_prev_sibling_ne _ _ _ _ hmn]
      · intro m
        rw [shapeAt_set_next_sibling, shapeAt_set_prev_sibling]
      · intro hwf
        exact WF_set_next_sibling _ _ (WF_set_prev_sibling _ _ hwf)
    | some q =>
      refine ⟨?_, ?_, rfl, ?_⟩
      · intro m _ hb hmn
        rw [getNode_set_next_sibling_ne _ _ _ _ hmn,
          getNode_set_prev_sibling_ne _ _ _ _ hmn,
          getNode_set_prev_sibling_ne _ _ _ _ (hb q rfl)]
      · intro m
        rw [shapeAt_set_next_sibling, shapeAt_set_prev_sibling,
          shapeAt_set_prev_sibling]
      · intro hwf
        exact WF_set_next_sibling _ _ (WF_set_prev_sibling _ _
          (WF_set_prev_sibling _ _ hwf))
  | some p =>
    cases b with
    | none =>
      refine ⟨?_, ?_, rfl, ?_⟩
      · intro m ha _ hmn
        rw [getNode_set_next_sibling_ne _ _ _ _ hmn,
          getNode_set_prev_sibling_ne _ _ _ _ hmn,
          getNode_set_next_sibling_ne _ _ _ _ (ha p rfl)]
      · intro m
        rw [shapeAt_set_next_sibling, shapeAt_set_prev_sibling,
          shapeAt_set_next_sibling]
      · intro hwf
        exact WF_set_next_sibling _ _ (WF_set_prev_sibling _ _
          (WF_set_next_sibling _ _ hwf))
    | some q =>
      refine ⟨?_, ?_, rfl, ?_⟩
      · intro m ha hb hmn
        rw [getNode_set_next_sibling_ne _ _ _ _ hmn,
          getNode_set_prev_sibling_ne _ _ _ _ hmn,
          getNode_set_prev_sibling_ne _ _ _ _ (hb q rfl),
          getNode_set_next_sibling_ne _ _ _ _ (ha p rfl)]
      · intro m
        rw [shapeAt_set_next_sibling, shapeAt_set_prev_sibling,
          shapeAt_set_prev_sibling, shapeAt_set_next_sibling]
      · intro hwf
        exact WF_set_next_sibling _ _ (WF_set_prev_sibling _ _
          (WF_set_prev_sibling _ _ (WF_set_next_sibling _ _ hwf)))

theorem adopted_heap_facts {h : Heap} {c dnew : Nat} {dc : XmlNodeData}
    (np : Option Nat)
    (hwf : WF h) (hc : getNode h c = some dc)
    (hnp : ∀ x, np = some x → x ∈ dc.children)
    (hcnot : c ∉ dc.children) (hne : dnew ≠ c) (hdlt : dnew < h.nextId) :
    (adopt_siblings (modifyNode (setParent h dnew (some c)) c
        (fun d => { d with children := dc.children ++ [dnew] }))
        dnew np none).nextId = h.nextId ∧
    WF (adopt_siblings (modifyNode (setParent h dnew (some c)) c
        (fun d => { d with children := dc.children ++ [dnew] })) dnew np none) ∧
    getNode (adopt_siblings (modifyNode (setParent h dnew (some c)) c
        (fun d => { d with children := dc.children ++ [dnew] })) dnew np none) c
      = some { dc with children := dc.children ++ [dnew] } ∧
    (∀ m, m ≠ c → m ≠ dnew → m ∉ dc.children →
      getNode (adopt_siblings (modifyNode (setParent h dnew (some c)) c
        (fun d => { d with children := dc.children ++ [dnew] })) dnew np none) m
        = getNode h m) ∧
    (∀ m, m ≠ c →
      shapeAt (adopt_siblings (modifyNode (setParent h dnew (some c)) c
        (fun d => { d with children := dc.children ++ [dnew] })) dnew np none) m
        = shapeAt h m) := by
  have hg2c : getNode (setParent h dnew (some c)) c = some dc := by
    rw [getNode_setParent_ne h dnew c _ (fun hcd => hne hcd.symm)]
    exact hc
  have hbound : ∀ x ∈ dc.children ++ [dnew], x < h.nextId := by
    intro x hx
    rcases List.mem_append.mp hx with h1 | h2
    · exact (WF_children_lt hwf hc).2 x h1
    · simp only [List.mem_singleton] at h2
      subst h2
      exact hdlt
  obtain ⟨hAget, hAshape, hAnext, hAwf⟩ := adopt_siblings_facts
    (modifyNode (setParent h dnew (some c)) c
      (fun d => { d with children := dc.children ++ [dnew] }))
    dnew np none
  refine ⟨hAnext, ?_, ?_, ?_, ?_⟩
  · refine hAwf (WF_modifyNode (WF_setParent dnew (some c) hwf) ?_)
    intro d _ x hx
    exact hbound x hx
  · rw [hAget c (fun x hx hcx => hcnot (hcx ▸ hnp x hx))
      (fun x hx => by cases hx) (fun hcd => hne hcd.symm)]
    rw [getNode_modifyNode_self, hg2c]
    rfl
  · intro m hmc hmd hmch
    rw [hAget m (fun x hx hmx => hmch (hmx ▸ hnp x hx))
      (fun x hx => by cases hx) hmd]
    rw [getNode_modifyNode_ne _ _ _ _ hmc]
    rw [getNode_setParent_ne _ _ _ _ hmd]
  · intro m hmc
    have hstep : shapeAt (modifyNode (setParent h dnew (some c)) c
        (fun d => { d with children := dc.children ++ [dnew] })) m
        = shapeAt (setParent h dnew (some c)) m := by
      unfold shapeAt
      rw [getNode_modifyNode_ne _ _ _ _ hmc]
    rw [hAshape m, hstep, shapeAt_setParent]

theorem insert_child_fresh {h : Heap} {c pos dnew : Nat} {dc : XmlNodeData}
    (hwf : WF h)
    (hc : getNode h c = some dc)
    (hcp : dc.parent = none)
    (hlen : dc.children.length = pos)
    (hcnot : c ∉ dc.children)
    (hne : dnew ≠ c)
    (hdlt : dnew < h.nextId)
    (hdp : parentOf h dnew = none) :
    ∃ hres, insert_child h c pos dnew = some hres ∧
      hres.nextId = h.nextId ∧
      WF hres ∧
      getNode hres c = some { dc with children := dc.children ++ [dnew] } ∧
      (∀ m, m ≠ c → m ≠ dnew → m ∉ dc.children → getNode hres m = getNode h m) ∧
      (∀ m, m ≠ c → shapeAt hres m = shapeAt h m) := by
  have hpc : parentOf h c = none := by
    unfold parentOf
    rw [hc]
    exact hcp
  have hanc : ancestors h c = [c] := ancestors_parentless hpc
  have hany : (ancestors h c).any (fun a => a == dnew) = false := by
    rw [hanc]
    simp only [List.any_cons, List.any_nil, Bool.or_false]
    exact beq_eq_false_iff_ne.mpr (fun hx => hne hx.symm)
  have hg2c : getNode (setParent h dnew (some c)) c = some dc := by
    rw [getNode_setParent_ne h dnew c _ (fun hcd => hne hcd.symm)]
    exact hc
  have hch2 : childrenOf (setParent h dnew (some c)) c = dc.children := by
    unfold childrenOf
    rw [hg2c]
    rfl
  have hins : insertAt? (childrenOf (setParent h dnew (some c)) c) pos dnew
      = some (dc.children ++ [dnew]) := by
    rw [hch2, ← hlen]
    exact insertAt?_length dc.children dnew
  have hnn : (dc.children ++ [dnew]).get? (pos + 1) = none := by
    apply List.get?_eq_none.mpr
    simp [← hlen]
  cases pos with
  | zero =>
    have heq : insert_child h c 0 dnew = some (adopt_siblings
        (modifyNode (setParent h dnew (some c)) c
          (fun d => { d with children := dc.children ++ [dnew] }))
        dnew none ((dc.children ++ [dnew]).get? (0 + 1))) := by
      unfold insert_child
      rw [hany]
      simp only [Bool.false_eq_true, if_false, hdp, hins]
    rw [hnn] at heq
    obtain ⟨g1, g2, g3, g4, g5⟩ := adopted_heap_facts none hwf hc
      (fun x hx => by cases hx) hcnot hne hdlt
    exact ⟨_, heq, g1, g2, g3, g4, g5⟩
  | succ q =>
    have heq : insert_child h c (q + 1) dnew = some (adopt_siblings
        (modifyNode (setParent h dnew (some c)) c
          (fun d => { d with children := dc.children ++ [dnew] }))
        dnew ((dc.children ++ [dnew]).get? q)
        ((dc.children ++ [dnew]).get? (q + 1 + 1))) := by
      unfold insert_child
      rw [hany]
      simp only [Bool.false_eq_true, if_false, hdp, hins]
    rw [hnn] at heq
    have hq : q < dc.children.length := by omega
    obtain ⟨g1, g2, g3, g4, g5⟩ := adopted_heap_facts ((dc.children ++ [dnew]).get? q)
      hwf hc
      (fun x hx => by
        rw [List.get?_append hq] at hx
        exact List.get?_mem hx)
      hcnot hne hdlt
    exact ⟨_, heq, g1, g2, g3, g4, g5⟩

theorem forall₂_map_eq {f1 f2 : Nat → PureTree} :
    ∀ {ds l : List Nat}, List.Forall₂ (fun a b => f1 a = f2 b) ds l →
      ds.map f1 = l.map f2 := by
  intro ds l hf
  induction hf with
  | nil => rfl
  | cons h1 _ ih => simp [h1, ih]

theorem forall₂_forall_left {R : Nat → Nat → Prop} :
    ∀ {ds l : List Nat}, List.Forall₂ R ds l → ∀ a ∈ ds, ∃ b, R a b := by
  intro ds l hf
  induction hf with
  | nil => intro a ha; cases ha
  | cons h1 _ ih =>
    intro a ha
    rcases List.mem_cons.mp ha with rfl | hmem
    · exact ⟨_, h1⟩
    · exact ih a hmem

/-- Induction invariant for `duplicate` at a given fuel: the clone id is the
old `nextId`, old nodes are untouched, the clone is fresh and unlinked with
copied content, and in the deep case its subtree mirrors the source
subtree. -/
def DupOk (fuel : Nat) : Prop :=
  ∀ (h : Heap) (n : Nat) (deep : Bool), WF h → fuelOk fuel h n = true →
    (duplicate fuel h n deep).2 = h.nextId ∧
    h.nextId < (duplicate fuel h n deep).1.nextId ∧
    WF (duplicate fuel h n deep).1 ∧
    (∀ m, m < h.nextId → getNode (duplicate fuel h n deep).1 m = getNode h m) ∧
    (∃ d2, getNode (duplicate fuel h n deep).1 h.nextId = some d2 ∧
      d2.script_object = none ∧ d2.attributes_script_object = none ∧
      d2.parent = none ∧ d2.prev_sibling = none ∧ d2.next_sibling = none ∧
      d2.node_type = (dupdata h n).node_type ∧
      d2.node_value = (dupdata h n).node_value ∧
      d2.attributes = (dupdata h n).attributes ∧
      (deep = false → d2.children = [])) ∧
    (deep = true →
      readTree fuel (duplicate fuel h n deep).1 h.nextId = readTree fuel h n ∧
      subtreeWithin fuel (duplicate fuel h n deep).1 h.nextId h.nextId
        (duplicate fuel h n deep).1.nextId = true)

theorem dupChildren_ok (fuel : Nat) (ihP : DupOk fuel) (h : Heap) (c : Nat)
    (hwfh : WF h) (hceq : c = h.nextId) :
    ∀ (l : List Nat) (pos : Nat) (hh : Heap) (dc : XmlNodeData),
    WF hh →
    h.nextId < hh.nextId →
    (∀ m, m < h.nextId → getNode hh m = getNode h m) →
    getNode hh c = some dc →
    dc.parent = none →
    dc.children.length = pos →
    (∀ x ∈ dc.children, c < x ∧ x < hh.nextId) →
    (∀ ch ∈ l, fuelOk fuel h ch = true ∧ ch < h.nextId) →
    (dupChildren fuel l pos hh c).2 = c ∧
    hh.nextId ≤ (dupChildren fuel l pos hh c).1.nextId ∧
    WF (dupChildren fuel l pos hh c).1 ∧
    (∀ m, m < h.nextId → getNode (dupChildren fuel l pos hh c).1 m = getNode h m) ∧
    (∀ m, m < hh.nextId → m ≠ c →
      shapeAt (dupChildren fuel l pos hh c).1 m = shapeAt hh m) ∧
    (∃ ds, getNode (dupChildren fuel l pos hh c).1 c
        = some { dc with children := dc.children ++ ds } ∧
      (∀ x ∈ ds, hh.nextId ≤ x ∧ x < (dupChildren fuel l pos hh c).1.nextId) ∧
      List.Forall₂ (fun dnew ch =>
        readTree fuel (dupChildren fuel l pos hh c).1 dnew = readTree fuel h ch ∧
        subtreeWithin fuel (dupChildren fuel l pos hh c).1 dnew
          (h.nextId + 1) (dupChildren fuel l pos hh c).1.nextId = true) ds l) := by
  intro l
  induction l with
  | nil =>
    intro pos hh dc hwfhh hlt hframe hgc hdcp hdclen hdcch _
    have hnil : dupChildren fuel [] pos hh c = (hh, c) := by
      simp only [dupChildren]
    rw [hnil]
    refine ⟨rfl, le_refl _, hwfhh, hframe, fun m _ _ => rfl, [], ?_, ?_, List.Forall₂.nil⟩
    · rw [List.append_nil]
      exact hgc
    · intro x hx
      cases hx
  | cons ch rest ih =>
    intro pos hh dc hwfhh hlt hframe hgc hdcp hdclen hdcch hl
    have hclt : c < hh.nextId := by omega
    have hchh : fuelOk fuel h ch = true ∧ ch < h.nextId := hl ch (List.mem_cons_self ch rest)
    have hfuelhh : fuelOk fuel hh ch = true :=
      fuelOk_frame fuel h hh hwfh hframe ch hchh.2 hchh.1
    obtain ⟨p1, p2, p3, p4, p5, p6⟩ := ihP hh ch true hwfhh hfuelhh
    obtain ⟨d2, p5g, p5so, p5aso, p5p, p5ps, p5ns, p5t, p5v, p5a, p5ch⟩ := p5
    obtain ⟨p6a, p6b⟩ := p6 rfl
    have hgc1 : getNode (duplicate fuel hh ch true).1 c = some dc := by
      rw [p4 c hclt]
      exact hgc
    have hcnot2 : c ∉ dc.children := fun hmem => absurd (hdcch c hmem).1 (lt_irrefl c)
    have hne2 : (duplicate fuel hh ch true).2 ≠ c := by
      rw [p1]
      omega
    have hdlt2 : (duplicate fuel hh ch true).2 < (duplicate fuel hh ch true).1.nextId := by
      rw [p1]
      exact p2
    have hdp2 : parentOf (duplicate fuel hh ch true).1 (duplicate fuel hh ch true).2
        = none := by
      rw [p1]
      unfold parentOf
      rw [p5g]
      exact p5p
    obtain ⟨hres, e1, e2, e3, e4, e5, e6⟩ :=
      insert_child_fresh p3 hgc1 hdcp hdclen hcnot2 hne2 hdlt2 hdp2
    have hstep : dupChildren fuel (ch :: rest) pos hh c
        = dupChildren fuel rest (pos + 1) hres c := by
      simp only [dupChildren]
      rw [e1]
      rfl
    rw [hstep]
    have hlt2 : h.nextId < hres.nextId := by
      rw [e2]
      omega
    have hframe2 : ∀ m, m < h.nextId → getNode hres m = getNode h m := by
      intro m hm
      have hmc : m ≠ c := by omega
      have hmd : m ≠ (duplicate fuel hh ch true).2 := by rw [p1]; omega
      have hmch : m ∉ dc.children := fun hmem => by
        have := (hdcch m hmem).1
        omega
      rw [e5 m hmc hmd hmch, p4 m (by omega), hframe m hm]
    have hdcp2 : ({ dc with children := dc.children ++ [(duplicate fuel hh ch true).2] }
        : XmlNodeData).parent = none := hdcp
    have hlen2 : ({ dc with children := dc.children ++ [(duplicate fuel hh ch true).2] }
        : XmlNodeData).children.length = pos + 1 := by
      simp [hdclen]
    have hch2 : ∀ x ∈ ({ dc with children :=
        dc.children ++ [(duplicate fuel hh ch true).2] } : XmlNodeData).children,
        c < x ∧ x < hres.nextId := by
      intro x hx
      rcases List.mem_append.mp hx with h1 | h2
      · obtain ⟨ha, hb⟩ := hdcch x h1
        refine ⟨ha, ?_⟩
        rw [e2]
        omega
      · simp only [List.mem_singleton] at h2
        subst h2

        constructor
        · rw [p1]
          omega
        · rw [p1, e2]
          exact p2
    have hl2 : ∀ ch' ∈ rest, fuelOk fuel h ch' = true ∧ ch' < h.nextId :=
      fun ch' hm => hl ch' (List.mem_cons_of_mem ch hm)
    obtain ⟨q1, q2, q3, q4, q5, q6⟩ := ih (pos + 1) hres
      { dc with children := dc.children ++ [(duplicate fuel hh ch true).2] }
      e3 hlt2 hframe2 e4 hdcp2 hlen2 hch2 hl2
    obtain ⟨ds', q6g, q6b, q6f⟩ := q6
    have hresle : hh.nextId ≤ hres.nextId := by
      rw [e2]
      omega
    refine ⟨q1, le_trans hresle q2, q3, q4, ?_, ?_⟩
    · intro m hm hmc
      rw [q5 m (by omega) hmc, e6 m hmc]
      unfold shapeAt
      rw [p4 m hm]
    · refine ⟨(duplicate fuel hh ch true).2 :: ds', ?_, ?_, ?_⟩
      · rw [q6g]
        show some { dc with children :=
          (dc.children ++ [(duplicate fuel hh ch true).2]) ++ ds' }
          = some { dc with children :=
            dc.children ++ (duplicate fuel hh ch true).2 :: ds' }
        rw [List.append_assoc]
        rfl
      · intro x hx
        rcases List.mem_cons.mp hx with rfl | hmem
        · constructor
          · rw [p1]
          · rw [p1]
            have hq2 := q2
            have he2 := e2
            omega
        · obtain ⟨ha, hb⟩ := q6b x hmem
          have he2 := e2
          exact ⟨by omega, hb⟩
      · refine List.Forall₂.cons ⟨?_, ?_⟩ q6f
        · -- mirror for the head
          have m1 : readTree fuel hh ch = readTree fuel h ch :=
            readTree_frame fuel h hh hwfh hframe ch hchh.2
          obtain ⟨t1, t2⟩ := readTree_congr_within fuel (duplicate fuel hh ch true).1
            hres hh.nextId hh.nextId (duplicate fuel hh ch true).1.nextId p6b
            (fun m hm1 _ => e6 m (by omega))
          obtain ⟨t3, t4⟩ := readTree_congr_within fuel hres
            (dupChildren fuel rest (pos + 1) hres c).1 hh.nextId hh.nextId
            (duplicate fuel hh ch true).1.nextId t2
            (fun m hm1 hm2 => q5 m (by omega) (by omega))
          rw [p1, t3, t1, p6a, m1]
        · -- subtree bound for the head
          obtain ⟨t1, t2⟩ := readTree_congr_within fuel (duplicate fuel hh ch true).1
            hres hh.nextId hh.nextId (duplicate fuel hh ch true).1.nextId p6b
            (fun m hm1 _ => e6 m (by omega))
          obtain ⟨t3, t4⟩ := readTree_congr_within fuel hres
            (dupChildren fuel rest (pos + 1) hres c).1 hh.nextId hh.nextId
            (duplicate fuel hh ch true).1.nextId t2
            (fun m hm1 hm2 => q5 m (by omega) (by omega))
          rw [p1]
          refine subtreeWithin_mono fuel _ _ hh.nextId
            (duplicate fuel hh ch true).1.nextId (h.nextId + 1)
            (dupChildren fuel rest (pos + 1) hres c).1.nextId (by omega) ?_ t4
          have he2 := e2
          have hq2 := q2
          omega

theorem dupOk_all : ∀ fuel, DupOk fuel := by
  intro fuel
  induction fuel with
  | zero =>
    intro h n deep hwf hfuel
    cases hfuel
  | succ f ih =>
    intro h n deep hwf hfuel
    cases deep with
    | false =>
      have hdup : duplicate (f + 1) h n false = (addNode h (dupdata h n), h.nextId) := by
        simp [duplicate]
      rw [hdup]
      refine ⟨rfl, Nat.lt_succ_self _, ?_, ?_, ?_, fun hdeep => nomatch hdeep⟩
      · exact WF_addNode hwf (by intro x hx; simp [dupdata] at hx)
      · intro m hm
        rw [getNode_addNode, if_neg (by omega)]
      · refine ⟨dupdata h n, ?_, rfl, rfl, rfl, rfl, rfl, rfl, rfl, rfl, fun _ => rfl⟩
        rw [getNode_addNode, if_pos rfl]
    | true =>
      have hdup : duplicate (f + 1) h n true
          = dupChildren f (childrenOf h n) 0 (addNode h (dupdata h n)) h.nextId := by
        simp [duplicate]
      rw [hdup]
      have hwfhh : WF (addNode h (dupdata h n)) :=
        WF_addNode hwf (by intro x hx; simp [dupdata] at hx)
      have hgc : getNode (addNode h (dupdata h n)) h.nextId = some (dupdata h n) := by
        rw [getNode_addNode, if_pos rfl]
      have hframe : ∀ m, m < h.nextId →
          getNode (addNode h (dupdata h n)) m = getNode h m := by
        intro m hm
        rw [getNode_addNode, if_neg (by omega)]
      have hlhyp : ∀ ch ∈ childrenOf h n, fuelOk f h ch = true ∧ ch < h.nextId := by
        intro ch hch
        constructor
        · simp only [fuelOk] at hfuel
          exact (List.all_eq_true.mp hfuel) ch hch
        · exact childrenOf_lt hwf ch hch
      obtain ⟨q1, q2, q3, q4, q5, q6⟩ := dupChildren_ok f ih h h.nextId hwf rfl
        (childrenOf h n) 0 (addNode h (dupdata h n)) (dupdata h n)
        hwfhh (Nat.lt_succ_self _) hframe hgc rfl rfl
        (by intro x hx; simp [dupdata] at hx) hlhyp
      obtain ⟨ds, q6g, q6b, q6f⟩ := q6
      have q6g' : getNode (dupChildren f (childrenOf h n) 0
          (addNode h (dupdata h n)) h.nextId).1 h.nextId
          = some { dupdata h n with children := ds } := by
        rw [q6g]
        rfl
      have hlt2 : h.nextId < (dupChildren f (childrenOf h n) 0
          (addNode h (dupdata h n)) h.nextId).1.nextId :=
        lt_of_lt_of_le (Nat.lt_succ_self _) q2
      refine ⟨q1, hlt2, q3, q4, ?_, ?_⟩
      · refine ⟨_, q6g', rfl, rfl, rfl, rfl, rfl, rfl, rfl, rfl, fun hfd => nomatch hfd⟩
      · intro _
        constructor
        · -- the clone subtree mirrors the source subtree
          cases hgn : getNode h n with
          | some d =>
            have hchn : childrenOf h n = d.children := by
              unfold childrenOf
              rw [hgn]
              rfl
            have hf2 : List.Forall₂ (fun a b =>
                readTree f (dupChildren f (childrenOf h n) 0
                  (addNode h (dupdata h n)) h.nextId).1 a = readTree f h b)
                ds (childrenOf h n) :=
              List.Forall₂.imp (fun a b hab => hab.1) q6f
            have hmapeq := forall₂_map_eq hf2
            have hdt : (dupdata h n).node_type = d.node_type := by simp [dupdata, hgn]
            have hdv : (dupdata h n).node_value = d.node_value := by simp [dupdata, hgn]
            have hda : (dupdata h n).attributes = d.attributes := by simp [dupdata, hgn]
            simp only [readTree, q6g', hgn]
            rw [hdt, hdv, hda, hmapeq, hchn]
          | none =>
            have hchn : childrenOf h n = [] := by
              unfold childrenOf
              rw [hgn]
              rfl
            rw [hchn] at q6f
            cases q6f
            have hdt : (dupdata h n).node_type = 0 := by simp [dupdata, hgn]
            have hdv : (dupdata h n).node_value = none := by simp [dupdata, hgn]
            have hda : (dupdata h n).attributes = [] := by simp [dupdata, hgn]
            simp only [readTree, q6g', hgn]
            rw [hdt, hdv, hda]
            rfl
        · -- the clone subtree is confined to the fresh region
          simp only [subtreeWithin, Bool.and_eq_true, decide_eq_true_eq,
            List.all_eq_true]
          refine ⟨⟨le_refl _, hlt2⟩, ?_⟩
          intro x hx
          have hchRT : childrenOf (dupChildren f (childrenOf h n) 0
              (addNode h (dupdata h n)) h.nextId).1 h.nextId = ds :=
            (childrenOf_eq q6g').trans rfl
          rw [hchRT] at hx
          obtain ⟨b, hb⟩ := forall₂_forall_left q6f x hx
          exact subtreeWithin_mono f _ x (h.nextId + 1) _ h.nextId _
            (by omega) (le_refl _) hb.2

/-! ## Claim C4 -/

/-- C4: `duplicate` returns a brand-new node (its id differs from every id
bound in the heap) with no parent and no siblings, the same kind and value,
and a copied attribute table; with `deep = false` the copy has no children;
with `deep = true` the clone's subtree reads back exactly as the source's
subtree (same kinds, values, attribute tables and child order, recursively);
and mutating the clone (for example setting an attribute on it) leaves every
pre-existing node, in particular `n` and its subtree, untouched. -/
theorem duplicate_spec (fuel : Nat) (h : Heap) (n : Nat) (deep : Bool)
    (d : XmlNodeData) (hwf : WF h) (hd : getNode h n = some d)
    (hfuel : fuelOk fuel h n = true) :
    (duplicate fuel h n deep).2 = h.nextId ∧
    (∀ p ∈ h.nodes, p.1 ≠ (duplicate fuel h n deep).2) ∧
    (∀ m, m < h.nextId → getNode (duplicate fuel h n deep).1 m = getNode h m) ∧
    (∃ d2, getNode (duplicate fuel h n deep).1 (duplicate fuel h n deep).2 = some d2 ∧
      d2.parent = none ∧ d2.prev_sibling = none ∧ d2.next_sibling = none ∧
      d2.node_type = d.node_type ∧ d2.node_value = d.node_value ∧
      d2.attributes = d.attributes ∧ (deep = false → d2.children = [])) ∧
    (deep = true →
      readTree fuel (duplicate fuel h n deep).1 (duplicate fuel h n deep).2
        = readTree fuel h n) ∧
    (∀ k v m, m < h.nextId →
      getNode (set_attribute_value (duplicate fuel h n deep).1
        (duplicate fuel h n deep).2 k v) m = getNode h m) := by
  obtain ⟨r1, r2, r3, r4, r5, r6⟩ := dupOk_all fuel h n deep hwf hfuel
  refine ⟨r1, ?_, r4, ?_, ?_, ?_⟩
  · intro p hp
    rw [r1]
    exact Nat.ne_of_lt (hwf p hp).1
  · obtain ⟨d2, g, _, _, gp, gps, gns, gt, gv, ga, gch⟩ := r5
    refine ⟨d2, ?_, gp, gps, gns, ?_, ?_, ?_, gch⟩
    · rw [r1]
      exact g
    · rw [gt]
      simp [dupdata, hd]
    · rw [gv]
      simp [dupdata, hd]
    · rw [ga]
      simp [dupdata, hd]
  · intro hdeep
    rw [r1]
    exact (r6 hdeep).1
  · intro k v m hm
    unfold set_attribute_value
    rw [getNode_modifyNode_ne _ _ _ _ (by rw [r1]; omega)]
    exact r4 m hm

/-- Witness for C4: deep-duplicating the two-node tree of `exHeapC4` yields a
clone whose subtree reads back equal to the source subtree. -/
theorem duplicate_spec_witness :
    readTree 2 (duplicate 2 exHeapC4 0 true).1 (duplicate 2 exHeapC4 0 true).2
      = readTree 2 exHeapC4 0 := by
  have hfull := duplicate_spec 2 exHeapC4 0 true
    (mkNodeData none none none ELEMENT_NODE (some "a") [("k", "v")] [1])
    (by decide) (by decide) (by decide)
  exact hfull.2.2.2.2.1 rfl

end XmlTree
